import Mathlib

/-!
Shallow embedding of the chunking + retrieval-ranking core of the
document-assistant repository (TypeScript sources: `src/lib/database.ts`,
`src/lib/ai-services.ts`, and the `DocumentChunkingService` / utility module).

Strings are modelled as `List Char`.  JavaScript `number` values are modelled
as exact rationals (`ℚ`) where the source only adds/compares small decimal
literals, as integers (`Int`) for character indices, and as reals (`ℝ`) where
the source takes square roots (cosine similarity).  JS float rounding is not
modelled; every comparison appearing in the source is between quantities whose
exact values make the rounding irrelevant (see comments at each use).
-/

namespace DocAssist

/-- JS `\s` / `trim` whitespace, restricted to the ASCII range actually used by
the repository's inputs. -/
def isWs (c : Char) : Bool :=
  c = ' ' || c = '\t' || c = '\n' || c = '\r' || c = '\x0b' || c = '\x0c'

/-- JS `\w` word characters `[A-Za-z0-9_]`. -/
def isWordChar (c : Char) : Bool :=
  c.isAlpha || c.isDigit || c = '_'

/-- Whether `pat` is an initial segment of `s`. -/
def beginsWith : List Char → List Char → Bool
  | [], _ => true
  | _ :: _, [] => false
  | a :: as, b :: bs => a = b && beginsWith as bs

mutual

/-- Model of `String.prototype.split(/\s+/)`: accumulating a token (`acc` holds the
current token reversed). -/
def splitGo : List Char → List Char → List (List Char)
  | [], acc => [acc.reverse]
  | c :: rest, acc =>
    if isWs c then acc.reverse :: splitSep rest else splitGo rest (c :: acc)

/-- Model of `String.prototype.split(/\s+/)`: inside a (maximal) whitespace separator
run; a separator at the very end of the string yields a final empty token,
exactly as in JS. -/
def splitSep : List Char → List (List Char)
  | [] => [[]]
  | c :: rest => if isWs c then splitSep rest else splitGo rest [c]

end

/-- JS `content.split(/\s+/)`. -/
def jsSplitWS (s : List Char) : List (List Char) :=
  splitGo s []

/-- JS `String.prototype.split('\n')`. -/
def splitNlGo : List Char → List Char → List (List Char)
  | [], acc => [acc.reverse]
  | c :: rest, acc =>
    if c = '\n' then acc.reverse :: splitNlGo rest [] else splitNlGo rest (c :: acc)

def splitOnNl (s : List Char) : List (List Char) :=
  splitNlGo s []

/-- JS `String.prototype.trim()`. -/
def jsTrim (s : List Char) : List Char :=
  ((s.dropWhile isWs).reverse.dropWhile isWs).reverse

/-- JS `String.prototype.substring(a, b)`: both arguments are clamped into
`[0, length]` and swapped if out of order. -/
def jsSubstring (s : List Char) (a b : Int) : List Char :=
  let len : Int := s.length
  let a' := min (max a 0) len
  let b' := min (max b 0) len
  let lo := min a' b'
  let hi := max a' b'
  (s.take hi.toNat).drop lo.toNat

/-- Largest index `i ≤ k` with `s[i] = c` (as an `Int`), `-1` if none. -/
def lastIndexLe (s : List Char) (c : Char) : ℕ → Int
  | 0 => if 0 < s.length ∧ s.getD 0 'A' = c then 0 else -1
  | k + 1 =>
    if k + 1 < s.length ∧ s.getD (k + 1) 'A' = c then ((k : Int) + 1)
    else lastIndexLe s c k

/-- JS `String.prototype.lastIndexOf(c, pos)`: the search start is clamped
into `[0, length]`. -/
def jsLastIndexOf (s : List Char) (c : Char) (pos : Int) : Int :=
  lastIndexLe s c (min (max pos 0) (s.length : Int)).toNat

/-- First-occurrence deduplication, as performed by iterating a JS `Set`. -/
def uniqAux : List (List Char) → List (List Char) → List (List Char)
  | [], _ => []
  | x :: xs, seen =>
    if seen.contains x then uniqAux xs seen else x :: uniqAux xs (x :: seen)

def uniqFirst (l : List (List Char)) : List (List Char) :=
  uniqAux l []

/-! ### Lexical similarity (utility module `calculateSimilarity`)

The source builds the Levenshtein dynamic-programming matrix row by row
(`matrix[i][j]`, `i` indexing `str2`, `j` indexing `str1`).  `levRowAux`
computes the entries `j+1, j+2, …` of one row given the diagonal entry
`matrix[i-1][j]`, the entry to the left `matrix[i][j]`, and the remainder of
the previous row starting at column `j+1`. -/

/-- One matrix entry: `m[i-1][j-1]` when the characters agree, else
`min(m[i-1][j-1] + 1, m[i][j-1] + 1, m[i-1][j] + 1)`. -/
def levEntry (c2 c1 : Char) (diag left p : ℕ) : ℕ :=
  if c2 = c1 then diag else min diag (min left p) + 1

def levRowAux (c2 : Char) : List Char → List ℕ → ℕ → ℕ → List ℕ
  | [], _, _, _ => []
  | _ :: _, [], _, _ => []
  | c1 :: s1, p :: prev, diag, left =>
    levEntry c2 c1 diag left p :: levRowAux c2 s1 prev p (levEntry c2 c1 diag left p)

/-- Row `i` of the matrix from row `i - 1`. -/
def levNextRow (c2 : Char) (s1 : List Char) (i : ℕ) (prev : List ℕ) : List ℕ :=
  match prev with
  | [] => [i]
  | p :: rest => i :: levRowAux c2 s1 rest p i

def levRowsGo (s1 : List Char) : List Char → ℕ → List ℕ → List ℕ
  | [], _, prev => prev
  | c2 :: s2, i, prev => levRowsGo s1 s2 (i + 1) (levNextRow c2 s1 i prev)

/-- Model of `levenshteinDistance(str1, str2)` from the utility module: the final value
is `matrix[str2.length][str1.length]`. -/
def levenshteinDistance (s1 s2 : List Char) : ℕ :=
  (levRowsGo s1 s2 1 (List.range (s1.length + 1))).getD s1.length 0

/-- Model of `calculateSimilarity(str1, str2)` from the utility module (lexical
fallback form): normalized edit distance. -/
def calculateSimilarity (str1 str2 : List Char) : ℚ :=
  let longer := if str1.length > str2.length then str1 else str2
  let shorter := if str1.length > str2.length then str2 else str1
  if longer.length = 0 then 1
  else ((longer.length : ℚ) - (levenshteinDistance longer shorter : ℚ)) / (longer.length : ℚ)

example : levenshteinDistance "kitten".data "sitting".data = 3 := by decide

example : calculateSimilarity "abcd".data "abcd".data = 1 := by
  have h : levenshteinDistance "abcd".data "abcd".data = 0 := by decide
  simp [calculateSimilarity, h]

example : jsSplitWS " a  b ".data = [[], ['a'], ['b'], []] := by decide

example : jsTrim "  hi ".data = ['h', 'i'] := by decide

example : jsSubstring "hello".data (-195) 5 = "hello".data := by decide

example : jsLastIndexOf "ab a".data 'a' 10 = 3 := by decide

example : uniqFirst ["a".data, "b".data, "a".data] = ["a".data, "b".data] := by decide

/-! ### `DocumentChunkingService.calculateImportance`

Each regex factor of the source is embedded as an executable test with the
exact matching semantics of the corresponding JS regex on ASCII text. -/

/-- Whether the previous character (if any) blocks a `\b` word boundary. -/
def boundaryOk : Option Char → Bool
  | none => true
  | some c => !isWordChar c

/-- A `\b` word boundary holds between a word character and the head of the
remaining text (or the end of the string). -/
def headBoundary : List Char → Bool
  | [] => true
  | c :: _ => !isWordChar c

/-- A single alternative of `\b(kw1|kw2|…)\b` matches at the head of `s`. -/
def kwMatchAt (kw : List Char) (prev : Option Char) (s : List Char) : Bool :=
  beginsWith kw s && boundaryOk prev && headBoundary (s.drop kw.length)

/-- Model of `\b(kw1|kw2|…)\b.test(s)`: search all positions, tracking the previous
character for the left word boundary. -/
def kwSearch (kws : List (List Char)) : Option Char → List Char → Bool
  | _, [] => false
  | prev, c :: rest =>
    kws.any (fun kw => kwMatchAt kw prev (c :: rest)) || kwSearch kws (some c) rest

def importanceKeywords : List (List Char) :=
  ["important", "key", "main", "primary", "critical", "essential"].map String.data

def summaryKeywords : List (List Char) :=
  ["summary", "conclusion", "overview", "abstract"].map String.data

def analysisKeywords : List (List Char) :=
  ["methodology", "results", "findings", "analysis"].map String.data

/-- Model of `/\b(important|key|main|primary|critical|essential)\b/i.test(content)`. -/
def importanceKwTest (content : List Char) : Bool :=
  kwSearch importanceKeywords none (content.map Char.toLower)

/-- Model of `/\b(summary|conclusion|overview|abstract)\b/i.test(content)`. -/
def summaryKwTest (content : List Char) : Bool :=
  kwSearch summaryKeywords none (content.map Char.toLower)

/-- Model of `/\b(methodology|results|findings|analysis)\b/i.test(content)`. -/
def analysisKwTest (content : List Char) : Bool :=
  kwSearch analysisKeywords none (content.map Char.toLower)

/-- The next character is the percent sign. -/
def headPercentMark : List Char → Bool
  | p :: _ => p = '%'
  | [] => false

/-- Model of `/\d+%|\d+\.\d+%/.test(content)`: equivalent to some digit immediately
followed by `%` (the second alternative implies the first). -/
def percentSearch : List Char → Bool
  | [] => false
  | c :: rest => (c.isDigit && headPercentMark rest) || percentSearch rest

/-- Whether `\b\d{4}\b` matches at the head of the list. -/
def yearAt (prev : Option Char) : List Char → Bool
  | d1 :: d2 :: d3 :: d4 :: rest2 =>
    d1.isDigit && d2.isDigit && d3.isDigit && d4.isDigit && boundaryOk prev &&
      headBoundary rest2
  | _ => false

/-- Model of `/\b\d{4}\b/.test(content)`. -/
def yearSearch : Option Char → List Char → Bool
  | _, [] => false
  | prev, c :: rest => yearAt prev (c :: rest) || yearSearch (some c) rest

def yearTest (content : List Char) : Bool :=
  yearSearch none content

/-- The space of `/[A-Z][a-z]+ [A-Z][a-z]+/` is followed by `[A-Z][a-z]`. -/
def properSpaceNext : List Char → Bool
  | u :: l :: _ => u.isUpper && l.isLower
  | _ => false

/-- Continuation of `/[A-Z][a-z]+ [A-Z][a-z]+/` after `[A-Z][a-z]` has been
consumed: either one more lowercase letter, or the space followed by
`[A-Z][a-z]`. -/
def properCont : List Char → Bool
  | [] => false
  | c :: rest => (c.isLower && properCont rest) || (c = ' ' && properSpaceNext rest)

def properAt : List Char → Bool
  | u :: c :: rest => u.isUpper && c.isLower && properCont rest
  | _ => false

def properSearch : List Char → Bool
  | [] => false
  | c :: rest => properAt (c :: rest) || properSearch rest

/-- Model of `/[A-Z][a-z]+ [A-Z][a-z]+/.test(content)` (proper-noun heuristic). -/
def properNounTest (content : List Char) : Bool :=
  properSearch content

/-- Model of `DocumentChunkingService.calculateImportance`.  The JS float literals
`0.5, 0.2, 0.15, 0.1, 0.05` are modelled as exact rationals; the source only
ever adds them and clamps, so relative order of possible scores agrees. -/
def calculateImportance (content : List Char) : ℚ :=
  let wordCount := (jsSplitWS content).length
  let score : ℚ := 1/2
  let score := score + (if importanceKwTest content then 2/10 else 0)
  let score := score + (if summaryKwTest content then 15/100 else 0)
  let score := score + (if analysisKwTest content then 1/10 else 0)
  let score := score + (if percentSearch content then 1/10 else 0)
  let score := score + (if yearTest content then 5/100 else 0)
  let score := score + (if properNounTest content then 5/100 else 0)
  let score := score + (if wordCount > 50 then 1/10 else 0)
  let score := score + (if wordCount > 100 then 5/100 else 0)
  max 0 (min score 1)

/-- The unclamped accumulated score of `calculateImportance`. -/
def importanceRaw (content : List Char) : ℚ :=
  let wordCount := (jsSplitWS content).length
  (1/2 : ℚ) + (if importanceKwTest content then 2/10 else 0)
    + (if summaryKwTest content then 15/100 else 0)
    + (if analysisKwTest content then 1/10 else 0)
    + (if percentSearch content then 1/10 else 0)
    + (if yearTest content then 5/100 else 0)
    + (if properNounTest content then 5/100 else 0)
    + (if wordCount > 50 then 1/10 else 0)
    + (if wordCount > 100 then 5/100 else 0)

example : importanceKwTest "a CRITICAL step".data = true := by decide

example : importanceKwTest "hypercritical".data = false := by decide

example : percentSearch "rose 50% up".data = true := by decide

example : yearTest "in 2020.".data = true := by decide

example : yearTest "in 20205".data = false := by decide

example : properNounTest "by John Smith".data = true := by decide

example : properNounTest "by JOHN smith".data = false := by decide

/-! ### `DocumentChunkingService.extractKeywords` -/

def stopWords : List (List Char) :=
  (["the", "a", "an", "and", "or", "but", "in", "on", "at", "to", "for", "of", "with", "by",
    "is", "are", "was", "were", "be", "been", "being", "have", "has", "had", "do", "does", "did",
    "will", "would", "could", "should", "may", "might", "can", "this", "that", "these", "those",
    "i", "you", "he", "she", "it", "we", "they", "me", "him", "her", "us", "them"]).map
    String.data

/-- Descending stable sort by a natural-number key, modelling the (ES2019
stable) JS `Array.prototype.sort((a, b) => b - a)` on the count values. -/
def keywordRel (p q : List Char × ℕ) : Prop := q.2 ≤ p.2

instance : DecidableRel keywordRel := fun p q => inferInstanceAs (Decidable (q.2 ≤ p.2))

/-- Model of `DocumentChunkingService.extractKeywords`: lowercase, strip `[^\w\s]`,
split on whitespace, keep words longer than 3 that are not stop words, count
frequencies (object key order = first appearance), stable-sort descending by
count, take the top `maxKeywords`. -/
def extractKeywords (content : List Char) (maxKeywords : ℕ := 10) : List (List Char) :=
  let words := (jsSplitWS ((content.map Char.toLower).filter
      (fun c => isWordChar c || isWs c))).filter
      (fun w => decide (w.length > 3) && !(stopWords.contains w))
  let entries := (uniqFirst words).map (fun w => (w, words.count w))
  ((List.insertionSort keywordRel entries).take maxKeywords).map Prod.fst

example :
    extractKeywords "Wind and wind and solar power near solar wind farms".data 2 =
      ["wind".data, "solar".data] := by decide

/-! ### `DocumentChunkingService.extractSection` / `extractHeading` -/

/-- Model of `/^#{1,6}\s/.test(line)`. -/
def mdHeadingTest (line : List Char) : Bool :=
  let n := (line.takeWhile (· = '#')).length
  decide (1 ≤ n) && decide (n ≤ 6) &&
    (match line.drop n with
     | c :: _ => isWs c
     | [] => false)

/-- Model of `line.replace(/^#{1,6}\s/, '')` for a line passing `mdHeadingTest`. -/
def stripMdHeading (line : List Char) : List Char :=
  let n := (line.takeWhile (· = '#')).length
  line.drop (n + 1)

/-- Model of `/^(chapter|section|part)\s+\d+/i` applied to a lowercased line after one
of the three words has been matched as a prefix. -/
def wsThenDigit (rest : List Char) : Bool :=
  (match rest with
   | c :: _ => isWs c
   | [] => false) &&
    (match rest.dropWhile isWs with
     | d :: _ => d.isDigit
     | [] => false)

/-- The three `sectionPatterns` regexes of `extractSection`, `/i`. -/
def sectionPatternTest (line : List Char) : Bool :=
  let low := line.map Char.toLower
  (["introduction", "overview", "summary", "conclusion", "abstract"].map String.data).any
      (fun w => beginsWith w low) ||
    (["chapter", "section", "part"].map String.data).any
      (fun w => beginsWith w low && wsThenDigit (low.drop w.length)) ||
    (["methodology", "results", "discussion", "analysis"].map String.data).any
      (fun w => beginsWith w low)

/-- Model of `DocumentChunkingService.extractSection`. -/
def extractSection (content : List Char) : List Char :=
  let lines := splitOnNl content
  match lines.find? mdHeadingTest with
  | some l => jsTrim (stripMdHeading l)
  | none =>
    match lines.find? sectionPatternTest with
    | some l => jsTrim l
    | none => "General".data

/-- The all-caps heading test of `extractHeading`: nonempty trimmed line of
less than 100 characters equal to its own uppercasing and matching
`/^[A-Z\s]+$/`. -/
def capsHeadingTest (t : List Char) : Bool :=
  decide (0 < t.length) && decide (t.length < 100) &&
    decide (t.map Char.toUpper = t) && t.all (fun c => c.isUpper || isWs c)

def colonHeadingTest (t : List Char) : Bool :=
  (match t.getLast? with
   | some c => c = ':'
   | none => false) && decide (t.length < 100)

/-- Model of `DocumentChunkingService.extractHeading`. -/
def extractHeading (content : List Char) : List Char :=
  let lines := splitOnNl content
  match lines.find? mdHeadingTest with
  | some l => jsTrim (stripMdHeading l)
  | none =>
    match lines.find? (fun l => capsHeadingTest (jsTrim l)) with
    | some l => jsTrim l
    | none =>
      match lines.find? (fun l => colonHeadingTest (jsTrim l)) with
      | some l => jsTrim ((jsTrim l).dropLast)
      | none => []

example : extractSection "intro\n## Results\nbody".data = "Results".data := by decide

example : extractSection "plain text\nmore".data = "General".data := by decide

example : extractHeading "one\nMY TITLE\ntwo".data = "MY TITLE".data := by decide

example : extractHeading "Setup:\nbody".data = "Setup".data := by decide

/-! ### Data model (`lib/types.ts`) -/

structure ChunkMeta where
  sectionLabel : List Char
  heading : List Char
  importance : ℚ
  keywords : List (List Char)

/-- Model of `DocumentChunk` of `lib/types.ts`.  `startIndex`/`endIndex` are JS
numbers and are modelled as integers because the chunking loop can drive
`startIndex` negative. -/
structure ChunkRec where
  id : List Char
  documentId : List Char
  content : List Char
  pageNumber : Option ℕ := none
  startIndex : Int
  endIndex : Int
  embedding : Option (List ℝ) := none
  metadata : ChunkMeta

/-! ### `DocumentChunkingService.chunkDocument` -/

/-- Constructor arguments of `DocumentChunkingService` with the source's
default values. -/
structure ChunkCfg where
  chunkSize : ℕ := 1000
  chunkOverlap : ℕ := 200

def defaultConfig : ChunkCfg := {}

/-- The mutable state of the `while (startIndex < content.length)` loop. -/
structure LoopSt where
  start : Int
  chunks : List ChunkRec
  idx : ℕ

/-- The `actualEndIndex` computed by one loop iteration from `startIndex`:
the raw boundary `min(startIndex + chunkSize, length)`, snapped to just after
the best break point when that lies past the window midpoint.
`breakPoint > startIndex + chunkSize * 0.5` is rendered as
`2 * breakPoint > 2 * startIndex + chunkSize`, which is exact for the integer
values involved. -/
def windowEnd (cfg : ChunkCfg) (content : List Char) (start : Int) : Int :=
  let len : Int := content.length
  let endIndex : Int := min (start + (cfg.chunkSize : Int)) len
  if endIndex < len then
    let lastDot := jsLastIndexOf content '.' endIndex
    let lastNl := jsLastIndexOf content '\n' endIndex
    let lastSpace := jsLastIndexOf content ' ' endIndex
    let breakPoint := max lastDot (max lastNl lastSpace)
    if 2 * breakPoint > 2 * start + (cfg.chunkSize : Int) then breakPoint + 1
    else endIndex
  else endIndex

/-- One iteration of the chunking loop (executed when `start < content.length`). -/
def chunkStep (cfg : ChunkCfg) (docId content : List Char) (s : LoopSt) : LoopSt :=
  let actualEnd : Int := windowEnd cfg content s.start
  let chunkContent := jsTrim (jsSubstring content s.start actualEnd)
  let s1 :=
    if chunkContent.length > 0 then
      { s with
        chunks := s.chunks ++
          [{ id := docId ++ "_chunk_".data ++ (Nat.repr s.idx).data,
             documentId := docId,
             content := chunkContent,
             startIndex := s.start,
             endIndex := actualEnd,
             metadata :=
               { sectionLabel := extractSection chunkContent,
                 heading := extractHeading chunkContent,
                 importance := calculateImportance chunkContent,
                 keywords := extractKeywords chunkContent } }],
        idx := s.idx + 1 }
    else s
  let newStart := actualEnd - (cfg.chunkOverlap : Int)
  { s1 with start := if newStart ≥ actualEnd then actualEnd else newStart }

/-- Fuel-indexed execution of the chunking loop: `none` means the loop has not
finished within `fuel` iterations. -/
def chunkRun (cfg : ChunkCfg) (docId content : List Char) : ℕ → LoopSt → Option (List ChunkRec)
  | 0, s => if s.start < (content.length : Int) then none else some s.chunks
  | fuel + 1, s =>
    if s.start < (content.length : Int) then
      chunkRun cfg docId content fuel (chunkStep cfg docId content s)
    else some s.chunks

/-- Iterating the loop body without the stopping condition; used to talk about
the chunks accumulated so far on non-terminating runs. -/
def chunkIter (cfg : ChunkCfg) (docId content : List Char) : ℕ → LoopSt → LoopSt
  | 0, s => s
  | n + 1, s => chunkIter cfg docId content n (chunkStep cfg docId content s)

inductive ChunkErr where
  | missingContent
  deriving DecidableEq

/-- Model of `DocumentChunkingService.chunkDocument`: throws when `document.content` is
falsy (absent or empty), then runs the windowing loop.  The result is
`Except`-of-`Option`: `.error` models the throw, `.ok none` a run that did not
finish within `fuel` loop iterations. -/
def chunkDocument (cfg : ChunkCfg) (docId : List Char) (content : Option (List Char))
    (fuel : ℕ) : Except ChunkErr (Option (List ChunkRec)) :=
  let c := content.getD []
  if c.isEmpty then Except.error ChunkErr.missingContent
  else Except.ok (chunkRun cfg docId c fuel ⟨0, [], 0⟩)

/-! ### `DocumentChunkingService.mergeSimilarChunks` -/

/-- Model of `DocumentChunkingService.calculateChunkSimilarity`: Jaccard similarity of
the lowercase `split(/\s+/)` word sets. -/
def calculateChunkSimilarity (chunk1 chunk2 : ChunkRec) : ℚ :=
  let words1 := uniqFirst (jsSplitWS (chunk1.content.map Char.toLower))
  let words2 := uniqFirst (jsSplitWS (chunk2.content.map Char.toLower))
  let inter := words1.filter (fun x => words2.contains x)
  let union := uniqFirst (words1 ++ words2)
  (inter.length : ℚ) / (union.length : ℚ)

/-- The merged record built in the `similarity > 0.7` branch. -/
def mergeChunkPair (cur next : ChunkRec) : ChunkRec :=
  { cur with
    content := cur.content ++ ' ' :: next.content,
    endIndex := next.endIndex,
    metadata :=
      { cur.metadata with
        keywords := uniqFirst (cur.metadata.keywords ++ next.metadata.keywords) } }

/-- The `for (let i = 1; …)` loop of `mergeSimilarChunks`.  The JS float
comparison `similarity > 0.7` is exact here: the similarity is a small
rational whose distance from `0.7` is far above double rounding error. -/
def mergeLoop (cur : ChunkRec) : List ChunkRec → List ChunkRec
  | [] => [cur]
  | next :: rest =>
    if calculateChunkSimilarity cur next > 7/10 then
      mergeLoop (mergeChunkPair cur next) rest
    else cur :: mergeLoop next rest

/-- Model of `DocumentChunkingService.mergeSimilarChunks`. -/
def mergeSimilarChunks : List ChunkRec → List ChunkRec
  | [] => []
  | [c] => [c]
  | c :: rest => mergeLoop c rest

/-! ### `DatabaseService.calculateCosineSimilarity` and
`DatabaseService.findSimilarChunks` (`lib/database.ts`)

Embedding vectors are modelled over `ℝ` because the source divides by square
roots of the norms. -/

/-- The single loop of `calculateCosineSimilarity` accumulates the dot product
(and, applied to a vector with itself, the squared norms). -/
def dotL : List ℝ → List ℝ → ℝ
  | x :: xs, y :: ys => x * y + dotL xs ys
  | _, _ => 0

/-- Model of `DatabaseService.calculateCosineSimilarity`: `0` on length mismatch or a
zero norm, else `dot / (√normA * √normB)`. -/
noncomputable def calculateCosineSimilarity (vectorA vectorB : List ℝ) : ℝ :=
  if vectorA.length ≠ vectorB.length then 0
  else
    let dotProduct := dotL vectorA vectorB
    let normA := dotL vectorA vectorA
    let normB := dotL vectorB vectorB
    if normA = 0 ∨ normB = 0 then 0
    else dotProduct / (Real.sqrt normA * Real.sqrt normB)

/-- The similarity score `findSimilarChunks` attaches to a stored chunk:
`JSON.parse(chunk.embedding)` with `[]` for a missing embedding. -/
noncomputable def chunkScore (queryEmbedding : List ℝ) (c : ChunkRec) : ℝ :=
  calculateCosineSimilarity queryEmbedding (c.embedding.getD [])

/-- The Prisma `where` clause: `embedding: { not: null }`, plus
`documentId: { in: documentIds }` when `documentIds` is passed and non-empty. -/
def scopeOk (documentIds : Option (List (List Char))) (c : ChunkRec) : Bool :=
  match documentIds with
  | some ids => if ids.isEmpty then true else ids.contains c.documentId
  | none => true

def candidateOk (documentIds : Option (List (List Char))) (c : ChunkRec) : Bool :=
  c.embedding.isSome && scopeOk documentIds c

/-- The `chunksWithSimilarity` array: filtered candidates paired with their
similarity score, in stored order. -/
noncomputable def scoreChunks (queryEmbedding : List ℝ)
    (documentIds : Option (List (List Char))) (stored : List ChunkRec) :
    List (ChunkRec × ℝ) :=
  (stored.filter (candidateOk documentIds)).map
    (fun c => (c, chunkScore queryEmbedding c))

/-- The comparator `(a, b) => b.similarity - a.similarity`: `rankRel p q` holds
when `p` may come before `q`. -/
def rankRel (p q : ChunkRec × ℝ) : Prop := q.2 ≤ p.2

noncomputable instance : DecidableRel rankRel :=
  fun p q => inferInstanceAs (Decidable (q.2 ≤ p.2))

instance : IsTotal (ChunkRec × ℝ) rankRel := ⟨fun p q => le_total q.2 p.2⟩

instance : IsTrans (ChunkRec × ℝ) rankRel := ⟨fun _ _ _ h1 h2 => le_trans h2 h1⟩

/-- The `.sort((a, b) => b.similarity - a.similarity)` call.  ES2019 requires
`Array.prototype.sort` to be stable; the stable descending sort is modelled by
insertion sort with `rankRel`, which produces the unique stable descending
arrangement. -/
noncomputable def rankChunks (queryEmbedding : List ℝ)
    (documentIds : Option (List (List Char))) (stored : List ChunkRec) :
    List (ChunkRec × ℝ) :=
  List.insertionSort rankRel (scoreChunks queryEmbedding documentIds stored)

/-- Model of `DatabaseService.findSimilarChunks`: filter, score, stable-sort
descending, truncate to `limit`, strip the similarity field. -/
noncomputable def findSimilarChunks (queryEmbedding : List ℝ)
    (documentIds : Option (List (List Char))) (limit : ℕ) (stored : List ChunkRec) :
    List ChunkRec :=
  ((rankChunks queryEmbedding documentIds stored).take limit).map Prod.fst

/-! ### `AIService.findRelevantChunks` (`lib/ai-services.ts`) -/

/-- An abstract failure of the wrapped `db.findSimilarChunks` call. -/
inductive DbError where
  | failure
  deriving DecidableEq

/-- Model of `AIService.findRelevantChunks`: the body returns the database result, and
the `catch` block logs and returns `[]` — the error does not escape. -/
def findRelevantChunks (dbResult : Except DbError (List ChunkRec)) : List ChunkRec :=
  match dbResult with
  | Except.ok chunks => chunks
  | Except.error _ => []

/-! ### Concrete fixtures and derived notions used by the theorems below -/

/-- The chunking loop exhausts every fuel bound from its initial state. -/
def neverFinishes (cfg : ChunkCfg) (docId content : List Char) : Prop :=
  ∀ fuel, chunkRun cfg docId content fuel ⟨0, [], 0⟩ = none

/-- A stored chunk whose embedding has dimension 2, used against a
3-dimensional query embedding. -/
def dimChunk : ChunkRec :=
  { id := "c1".data, documentId := "d1".data, content := "alpha".data,
    startIndex := 0, endIndex := 5, embedding := some [1, 0],
    metadata := { sectionLabel := [], heading := [], importance := 1/2, keywords := [] } }

/-- The pair of set sizes (intersection, union) whose quotient is
`calculateChunkSimilarity`. -/
def jaccardCounts (chunk1 chunk2 : ChunkRec) : ℕ × ℕ :=
  let words1 := uniqFirst (jsSplitWS (chunk1.content.map Char.toLower))
  let words2 := uniqFirst (jsSplitWS (chunk2.content.map Char.toLower))
  let inter := words1.filter (fun x => words2.contains x)
  let union := uniqFirst (words1 ++ words2)
  (inter.length, union.length)

def chunkA : ChunkRec :=
  { id := "a".data, documentId := "d1".data, content := "the cat sat on the mat".data,
    startIndex := 0, endIndex := 22,
    metadata := { sectionLabel := [], heading := [], importance := 1/2, keywords := [] } }

def chunkB : ChunkRec :=
  { id := "b".data, documentId := "d1".data, content := "the cat sat on the rug".data,
    startIndex := 18, endIndex := 40,
    metadata := { sectionLabel := [], heading := [], importance := 1/2, keywords := [] } }

def criticalSuffix : List Char := " critical 50%".data

/-- A 101-word content hitting every factor except the importance keywords and
the percentage: its unclamped score is already exactly 1. -/
def bigContent : List Char :=
  "summary analysis 2020 John Smith".data ++ (List.replicate 96 " aa".data).flatten

/-! ## General lemmas -/

theorem calculateImportance_eq (content : List Char) :
    calculateImportance content = max 0 (min (importanceRaw content) 1) := rfl

/-! ## Claim C8 -/

/-- Claim C8: `chunkDocument` fails with the missing-content error exactly when
the document's content is missing (`none`) or empty; for every document with
non-empty content, and any fuel, it does not raise this error. -/
theorem chunkDocument_missingContent_iff (cfg : ChunkCfg) (docId : List Char)
    (content : Option (List Char)) (fuel : ℕ) :
    chunkDocument cfg docId content fuel = Except.error ChunkErr.missingContent ↔
      (content = none ∨ content = some []) := by
  rcases content with _ | (_ | ⟨c, cs⟩) <;> simp [chunkDocument]

/-! ## Claim C6 -/

/-- Claim C6 counterexample: `AIService.findRelevantChunks` maps a failed
retrieval to the same result as a successful retrieval of zero chunks — the
error is replaced by the default empty list instead of propagating. -/
theorem findRelevantChunks_swallows_error :
    findRelevantChunks (Except.error DbError.failure) = findRelevantChunks (Except.ok []) :=
  rfl

/-- Claim C6 (amended): retrieval errors inside the query pipeline's
`findRelevantChunks` are caught and converted to an empty chunk list, while
`chunkDocument`'s missing-content error does propagate to its caller. -/
theorem findRelevantChunks_error_policy :
    (∀ e : DbError, findRelevantChunks (Except.error e) = []) ∧
      (∀ chunks : List ChunkRec, findRelevantChunks (Except.ok chunks) = chunks) ∧
      (∀ (cfg : ChunkCfg) (docId : List Char) (fuel : ℕ),
        chunkDocument cfg docId (some []) fuel = Except.error ChunkErr.missingContent) :=
  ⟨fun _ => rfl, fun _ => rfl, fun _ _ _ => rfl⟩

/-! ## Claim C7 -/

/-- Claim C7 counterexample: a query embedding whose dimensionality differs
from the candidate's embedding does not fail — `findSimilarChunks` still
returns the candidate (its cosine score is the defensive `0`). -/
theorem findSimilarChunks_dim_mismatch_returns :
    findSimilarChunks [1, 2, 3] none 5 [dimChunk] = [dimChunk] ∧
      calculateCosineSimilarity [1, 2, 3] (dimChunk.embedding.getD []) = 0 := by
  constructor
  · rfl
  · simp [calculateCosineSimilarity, dimChunk]

/-- Claim C7 (amended): on mismatched dimensionality the ranking does not
raise any error; `calculateCosineSimilarity` returns the defensive default
`0` for vectors of different lengths. -/
theorem calculateCosineSimilarity_length_mismatch (a b : List ℝ)
    (h : a.length ≠ b.length) : calculateCosineSimilarity a b = 0 := by
  simp [calculateCosineSimilarity, h]

/-- Witness for `calculateCosineSimilarity_length_mismatch` at a concrete
mismatched pair. -/
theorem calculateCosineSimilarity_length_mismatch_witness :
    calculateCosineSimilarity [1] [1, 2] = 0 :=
  calculateCosineSimilarity_length_mismatch [1] [1, 2] (by simp)

/-! ## Claim C2 -/

theorem calculateChunkSimilarity_eq_counts (c1 c2 : ChunkRec) :
    calculateChunkSimilarity c1 c2 =
      ((jaccardCounts c1 c2).1 : ℚ) / ((jaccardCounts c1 c2).2 : ℚ) := rfl

theorem chunkAB_similarity : calculateChunkSimilarity chunkA chunkB = 2/3 := by
  have h : jaccardCounts chunkA chunkB = (4, 6) := by decide
  rw [calculateChunkSimilarity_eq_counts, h]
  norm_num

/-- Claim C2 counterexample: for the two contents of the spec's scenario the
lowercase word sets are `{the, cat, sat, on, mat}` and `{the, cat, sat, on,
rug}`, so the Jaccard similarity is `4/6 = 2/3`, not `5/7`; `2/3` does not
exceed the `0.7` threshold and `mergeSimilarChunks` keeps both chunks. -/
theorem mergeSimilarChunks_catMat_two_chunks :
    calculateChunkSimilarity chunkA chunkB = 2/3 ∧
      ¬(calculateChunkSimilarity chunkA chunkB > 7/10) ∧
      (mergeSimilarChunks [chunkA, chunkB]).length = 2 := by
  have hs := chunkAB_similarity
  refine ⟨hs, by rw [hs]; norm_num, ?_⟩
  show (mergeLoop chunkA [chunkB]).length = 2
  rw [mergeLoop, if_neg (by rw [hs]; norm_num)]
  rfl

/-! ## Claims C5, C9, C10: behaviour of the chunking loop

With any positive overlap the loop cannot terminate: every iteration sets
`startIndex` to `actualEndIndex - overlap`, which is at most
`content.length - overlap < content.length`, and the guard
`if (startIndex >= actualEndIndex)` never fires for a positive overlap. -/

theorem lastIndexLe_le (s : List Char) (c : Char) :
    ∀ k, lastIndexLe s c k ≤ (s.length : Int) - 1 := by
  intro k
  induction k with
  | zero =>
    rw [lastIndexLe]
    split
    · next h => have h1 := h.1; omega
    · omega
  | succ k ih =>
    rw [lastIndexLe]
    split
    · next h => have h1 := h.1; omega
    · exact ih

theorem jsLastIndexOf_le (s : List Char) (c : Char) (pos : Int) :
    jsLastIndexOf s c pos ≤ (s.length : Int) - 1 :=
  lastIndexLe_le s c _

/-- The actual end of a window never exceeds the content length. -/
theorem windowEnd_le (cfg : ChunkCfg) (content : List Char) (start : Int) :
    windowEnd cfg content start ≤ (content.length : Int) := by
  unfold windowEnd
  have h1 := jsLastIndexOf_le content '.' (min (start + (cfg.chunkSize : Int)) content.length)
  have h2 := jsLastIndexOf_le content '\n' (min (start + (cfg.chunkSize : Int)) content.length)
  have h3 := jsLastIndexOf_le content ' ' (min (start + (cfg.chunkSize : Int)) content.length)
  dsimp only
  split
  · split <;> omega
  · omega

/-- With a positive overlap the `startIndex >= actualEndIndex` guard never
fires, so the next start is exactly `actualEndIndex - overlap`. -/
theorem chunkStep_start (cfg : ChunkCfg) (docId content : List Char) (s : LoopSt)
    (hov : 1 ≤ cfg.chunkOverlap) :
    (chunkStep cfg docId content s).start =
      windowEnd cfg content s.start - (cfg.chunkOverlap : Int) := by
  unfold chunkStep
  dsimp only
  rw [if_neg (by omega)]

/-- Every iteration with a positive overlap leaves `startIndex` strictly below
the content length, so the loop condition keeps holding. -/
theorem chunkStep_start_lt (cfg : ChunkCfg) (docId content : List Char) (s : LoopSt)
    (hov : 1 ≤ cfg.chunkOverlap) :
    (chunkStep cfg docId content s).start < (content.length : Int) := by
  rw [chunkStep_start cfg docId content s hov]
  have h := windowEnd_le cfg content s.start
  omega

/-- With a positive overlap, once inside the loop the run never finishes,
whatever the fuel. -/
theorem chunkRun_eq_none (cfg : ChunkCfg) (docId content : List Char)
    (hov : 1 ≤ cfg.chunkOverlap) :
    ∀ (fuel : ℕ) (s : LoopSt), s.start < (content.length : Int) →
      chunkRun cfg docId content fuel s = none := by
  intro fuel
  induction fuel with
  | zero => intro s h; rw [chunkRun, if_pos h]
  | succ f ih =>
    intro s h
    rw [chunkRun, if_pos h]
    exact ih _ (chunkStep_start_lt cfg docId content s hov)

/-- Claim C5: with the default configuration (`chunkSize = 1000`,
`overlap = 200`) the chunking loop never terminates even on the five-character
content `"hello"`: the final window keeps restarting at `length - overlap`,
so `chunkDocument` runs out of any fuel bound without an answer. -/
theorem chunkDocument_hello_diverges :
    neverFinishes defaultConfig "d1".data "hello".data ∧
      chunkDocument defaultConfig "d1".data (some "hello".data) 100 = Except.ok none := by
  have h : neverFinishes defaultConfig "d1".data "hello".data := fun fuel =>
    chunkRun_eq_none defaultConfig "d1".data "hello".data (by decide) fuel ⟨0, [], 0⟩
      (by decide)
  exact ⟨h, by rw [chunkDocument, if_neg (by decide)]; simp only [Option.getD_some]; rw [h 100]⟩

/-- Claim C9: at content `"hello"` under the default configuration, the first
iteration emits the chunk `[0, 5)` and sets `startIndex` to `-195`; the second
iteration emits another `"hello"` chunk with `startIndex = -195`, so the
emitted ranges are neither non-negative nor strictly increasing. -/
theorem chunkStep_hello_violates_invariants :
    ((chunkStep defaultConfig "d1".data "hello".data ⟨0, [], 0⟩).chunks.map
        (fun c => (c.startIndex, c.endIndex)) = [((0 : Int), (5 : Int))]) ∧
      (chunkStep defaultConfig "d1".data "hello".data ⟨0, [], 0⟩).start = -195 ∧
      ((chunkStep defaultConfig "d1".data "hello".data
          (chunkStep defaultConfig "d1".data "hello".data ⟨0, [], 0⟩)).chunks.map
        (fun c => (c.startIndex, c.endIndex)) = [((0 : Int), (5 : Int)), ((-195 : Int), (5 : Int))]) := by
  refine ⟨by decide, by decide, by decide⟩

/-- Claim C10 counterexample: on the whitespace-only content `"   "` the
chunking loop never finishes, so `chunkDocument` does not succeed (with the
empty chunk list or any other result) on it. -/
theorem chunkDocument_whitespace_diverges :
    neverFinishes defaultConfig "d1".data "   ".data ∧
      chunkDocument defaultConfig "d1".data (some "   ".data) 100 = Except.ok none := by
  have h : neverFinishes defaultConfig "d1".data "   ".data := fun fuel =>
    chunkRun_eq_none defaultConfig "d1".data "   ".data (by decide) fuel ⟨0, [], 0⟩
      (by decide)
  exact ⟨h, by rw [chunkDocument, if_neg (by decide)]; simp only [Option.getD_some]; rw [h 100]⟩

theorem mem_jsSubstring {x : Char} {s : List Char} {a b : Int}
    (hx : x ∈ jsSubstring s a b) : x ∈ s := by
  unfold jsSubstring at hx
  exact List.take_subset _ _ (List.drop_subset _ _ hx)

theorem jsTrim_eq_nil {s : List Char} (h : ∀ x ∈ s, isWs x = true) : jsTrim s = [] := by
  unfold jsTrim
  have h1 : s.dropWhile isWs = [] := List.dropWhile_eq_nil_iff.mpr h
  simp [h1]

/-- On whitespace-only content every window trims to the empty string, so an
iteration never emits a chunk. -/
theorem chunkStep_ws_chunks (cfg : ChunkCfg) (docId content : List Char) (s : LoopSt)
    (hws : ∀ x ∈ content, isWs x = true) :
    (chunkStep cfg docId content s).chunks = s.chunks := by
  unfold chunkStep
  have hnil : jsTrim (jsSubstring content s.start (windowEnd cfg content s.start)) = [] :=
    jsTrim_eq_nil (fun x hx => hws x (mem_jsSubstring hx))
  simp [hnil]

theorem chunkIter_ws_chunks (cfg : ChunkCfg) (docId content : List Char)
    (hws : ∀ x ∈ content, isWs x = true) :
    ∀ (n : ℕ) (s : LoopSt), (chunkIter cfg docId content n s).chunks = s.chunks := by
  intro n
  induction n with
  | zero => intro s; rfl
  | succ n ih =>
    intro s
    rw [chunkIter, ih, chunkStep_ws_chunks cfg docId content s hws]

/-- Claim C10 (amended): on non-empty whitespace-only content no chunk is ever
emitted and no error is raised, but `chunkDocument` does not terminate: every
fuel bound is exhausted with an empty accumulated chunk list. -/
theorem chunkDocument_whitespace_behavior (content : List Char) (h1 : content ≠ [])
    (h2 : ∀ x ∈ content, isWs x = true) :
    (∀ fuel, chunkDocument defaultConfig "d1".data (some content) fuel = Except.ok none) ∧
      (∀ n, (chunkIter defaultConfig "d1".data content n ⟨0, [], 0⟩).chunks = []) := by
  constructor
  · intro fuel
    unfold chunkDocument
    rw [if_neg (by simpa using h1)]
    have hlen : 0 < content.length := List.length_pos.mpr h1
    simp only [Option.getD_some]
    rw [chunkRun_eq_none defaultConfig "d1".data content (by decide) fuel ⟨0, [], 0⟩
      (by show (0 : Int) < (content.length : Int); exact_mod_cast hlen)]
  · intro n
    exact chunkIter_ws_chunks defaultConfig "d1".data content h2 n ⟨0, [], 0⟩

/-- Witness for `chunkDocument_whitespace_behavior` at the single-space
content. -/
theorem chunkDocument_whitespace_behavior_witness :
    chunkDocument defaultConfig "d1".data (some " ".data) 5 = Except.ok none ∧
      (chunkIter defaultConfig "d1".data " ".data 3 ⟨0, [], 0⟩).chunks = [] := by
  have h := chunkDocument_whitespace_behavior " ".data (by decide) (by decide)
  exact ⟨h.1 5, h.2 3⟩

/-- Claim C2 (amended): `mergeSimilarChunks` merges an adjacent pair exactly
when its Jaccard similarity exceeds `0.7`; for the spec's two chunks the
similarity is `2/3 ≤ 0.7`, so the result is the two chunks unmerged. -/
theorem mergeSimilarChunks_pair_spec :
    (∀ a b : ChunkRec,
      mergeSimilarChunks [a, b] =
        if calculateChunkSimilarity a b > 7/10 then [mergeChunkPair a b] else [a, b]) ∧
      mergeSimilarChunks [chunkA, chunkB] = [chunkA, chunkB] := by
  have hpair : ∀ a b : ChunkRec,
      mergeSimilarChunks [a, b] =
        if calculateChunkSimilarity a b > 7/10 then [mergeChunkPair a b] else [a, b] := by
    intro a b
    show mergeLoop a [b] = _
    rw [mergeLoop]
    split <;> rfl
  refine ⟨hpair, ?_⟩
  rw [hpair, if_neg (by rw [chunkAB_similarity]; norm_num)]

/-! ## Claim C1 -/

theorem mem_scoreChunks {q : List ℝ} {ids : Option (List (List Char))}
    {stored : List ChunkRec} {p : ChunkRec × ℝ} (hp : p ∈ scoreChunks q ids stored) :
    p.1 ∈ stored ∧ candidateOk ids p.1 = true ∧ p.2 = chunkScore q p.1 := by
  unfold scoreChunks at hp
  rcases List.mem_map.mp hp with ⟨c, hc, rfl⟩
  rcases List.mem_filter.mp hc with ⟨h1, h2⟩
  exact ⟨h1, h2, rfl⟩

/-- Claim C1: `findSimilarChunks` (i) returns at most `limit` chunks, (ii)
returns only stored candidates, all within the document-id scope whenever a
non-empty scope is provided, (iii) filters nothing by scope when the scope is
absent or empty (every stored chunk with an embedding is ranked), (iv) returns
chunks sorted by non-increasing similarity score, and (v) sorts stably: a pair
of scored candidates with equal scores appearing in candidate order stays in
that order in the ranking. -/
theorem findSimilarChunks_spec (q : List ℝ) (ids : Option (List (List Char)))
    (limit : ℕ) (stored : List ChunkRec) :
    (findSimilarChunks q ids limit stored).length ≤ limit ∧
      (∀ c ∈ findSimilarChunks q ids limit stored,
        c ∈ stored ∧ ∀ l, ids = some l → l ≠ [] → c.documentId ∈ l) ∧
      ((ids = none ∨ ids = some []) → ∀ c ∈ stored, c.embedding.isSome = true →
        c ∈ (rankChunks q ids stored).map Prod.fst) ∧
      (findSimilarChunks q ids limit stored).Pairwise
        (fun a b => chunkScore q b ≤ chunkScore q a) ∧
      (∀ p p' : ChunkRec × ℝ, p.2 = p'.2 →
        List.Sublist [p, p'] (scoreChunks q ids stored) →
        List.Sublist [p, p'] (rankChunks q ids stored)) := by
  have hperm : ∀ p, p ∈ rankChunks q ids stored → p ∈ scoreChunks q ids stored :=
    fun p hp => (List.perm_insertionSort rankRel (scoreChunks q ids stored)).subset hp
  refine ⟨?_, ?_, ?_, ?_, ?_⟩
  · have h : (findSimilarChunks q ids limit stored).length =
        min limit (rankChunks q ids stored).length := by
      simp [findSimilarChunks]
    omega
  · intro c hc
    rcases List.mem_map.mp hc with ⟨p, hp, rfl⟩
    have hp2 : p ∈ rankChunks q ids stored := List.take_subset _ _ hp
    rcases mem_scoreChunks (hperm p hp2) with ⟨hmem, hok, _⟩
    refine ⟨hmem, ?_⟩
    rintro l rfl hl
    have hscope : scopeOk (some l) p.1 = true := by
      have := (Bool.and_eq_true _ _).mp hok
      exact this.2
    rw [scopeOk, if_neg (by simpa using hl)] at hscope
    simpa using hscope
  · intro hids c hc hemb
    have hok : candidateOk ids c = true := by
      rcases hids with rfl | rfl <;> simp [candidateOk, scopeOk, hemb]
    have hsc : (c, chunkScore q c) ∈ scoreChunks q ids stored := by
      unfold scoreChunks
      exact List.mem_map.mpr ⟨c, List.mem_filter.mpr ⟨hc, hok⟩, rfl⟩
    have hrk : (c, chunkScore q c) ∈ rankChunks q ids stored :=
      (List.perm_insertionSort rankRel (scoreChunks q ids stored)).symm.subset hsc
    exact List.mem_map.mpr ⟨_, hrk, rfl⟩
  · have hsorted : (rankChunks q ids stored).Pairwise rankRel :=
      List.sorted_insertionSort rankRel (scoreChunks q ids stored)
    have htake : ((rankChunks q ids stored).take limit).Pairwise rankRel :=
      hsorted.sublist (List.take_sublist limit _)
    refine List.pairwise_map.mpr (htake.imp_of_mem ?_)
    intro p p' hp hp' hr
    have h1 := (mem_scoreChunks (hperm p (List.take_subset _ _ hp))).2.2
    have h2 := (mem_scoreChunks (hperm p' (List.take_subset _ _ hp'))).2.2
    rw [rankRel, h1, h2] at hr
    exact hr
  · intro p p' hpe hsub
    exact List.pair_sublist_insertionSort (le_of_eq hpe.symm) hsub

/-! ## Claim C3

The Levenshtein matrix satisfies `m[i][j] ≤ max i j`, which bounds the final
distance by the longer length; Cauchy-Schwarz bounds the cosine form. -/

theorem levEntry_le {c2 c1 : Char} {diag left p a j : ℕ} (hdiag : diag ≤ max a j) :
    levEntry c2 c1 diag left p ≤ max (a + 1) (j + 1) := by
  unfold levEntry
  split <;> omega

theorem levRowAux_le (c2 : Char) :
    ∀ (s1 : List Char) (prev : List ℕ) (diag left a j : ℕ),
      diag ≤ max a j →
      (∀ k, prev.getD k 0 ≤ max a (j + 1 + k)) →
      ∀ k, (levRowAux c2 s1 prev diag left).getD k 0 ≤ max (a + 1) (j + 1 + k) := by
  intro s1
  induction s1 with
  | nil =>
    intro prev diag left a j _ _ k
    simp [levRowAux]
  | cons c1 s1 ih =>
    intro prev diag left a j hdiag hprev k
    cases prev with
    | nil => simp [levRowAux]
    | cons p prev =>
      rw [levRowAux]
      have hp0 : p ≤ max a (j + 1) := by simpa using hprev 0
      have he : levEntry c2 c1 diag left p ≤ max (a + 1) (j + 1) := levEntry_le hdiag
      cases k with
      | zero => simpa using he
      | succ k =>
        have hrec := ih prev p (levEntry c2 c1 diag left p) a (j + 1) hp0
          (fun k => by have := hprev (k + 1); simp at this ⊢; omega) k
        simp at hrec ⊢
        omega

theorem levRowsGo_le (s1 : List Char) :
    ∀ (s2 : List Char) (a : ℕ) (prev : List ℕ),
      (∀ k, prev.getD k 0 ≤ max a k) →
      ∀ k, (levRowsGo s1 s2 (a + 1) prev).getD k 0 ≤ max (a + s2.length) k := by
  intro s2
  induction s2 with
  | nil =>
    intro a prev hprev k
    simpa [levRowsGo] using hprev k
  | cons c2 s2 ih =>
    intro a prev hprev k
    rw [levRowsGo]
    have hrow : ∀ k, (levNextRow c2 s1 (a + 1) prev).getD k 0 ≤ max (a + 1) k := by
      intro k
      unfold levNextRow
      cases prev with
      | nil =>
        cases k with
        | zero => simp
        | succ k => simp
      | cons p rest =>
        cases k with
        | zero => simp
        | succ k =>
          have hp0 : p ≤ max a 0 := by simpa using hprev 0
          have := levRowAux_le c2 s1 rest p (a + 1) a 0 hp0
            (fun k => by have := hprev (k + 1); simp at this ⊢; omega) k
          simp at this ⊢
          omega
    have h := ih (a + 1) (levNextRow c2 s1 (a + 1) prev) hrow k
    have harith : a + 1 + s2.length = a + (s2.length + 1) := by omega
    simp only [List.length_cons]
    omega

theorem levenshteinDistance_le (s1 s2 : List Char) :
    levenshteinDistance s1 s2 ≤ max s2.length s1.length := by
  unfold levenshteinDistance
  have hinit : ∀ k, (List.range (s1.length + 1)).getD k 0 ≤ max 0 k := by
    intro k
    rcases lt_or_ge k (s1.length + 1) with h | h
    · simp [List.getD, List.getElem?_range h]
    · have : (List.range (s1.length + 1)).length ≤ k := by simpa using h
      simp [List.getD, List.getElem?_eq_none this]
  have h := levRowsGo_le s1 s2 0 (List.range (s1.length + 1)) hinit s1.length
  simpa using h

theorem normalizedScore_bounds (a b : List Char) (hba : b.length ≤ a.length) :
    0 ≤ (if a.length = 0 then (1 : ℚ)
         else ((a.length : ℚ) - (levenshteinDistance a b : ℚ)) / (a.length : ℚ)) ∧
      (if a.length = 0 then (1 : ℚ)
       else ((a.length : ℚ) - (levenshteinDistance a b : ℚ)) / (a.length : ℚ)) ≤ 1 := by
  split
  · norm_num
  · next h =>
    have hlev : levenshteinDistance a b ≤ a.length := by
      have := levenshteinDistance_le a b
      omega
    have hpos : (0 : ℚ) < (a.length : ℚ) := by
      exact_mod_cast Nat.pos_of_ne_zero h
    have hlevq : (levenshteinDistance a b : ℚ) ≤ (a.length : ℚ) := by exact_mod_cast hlev
    have hlev0 : (0 : ℚ) ≤ (levenshteinDistance a b : ℚ) := by positivity
    constructor
    · apply div_nonneg _ (le_of_lt hpos)
      linarith
    · rw [div_le_one hpos]
      linarith

theorem calculateSimilarity_bounds (str1 str2 : List Char) :
    0 ≤ calculateSimilarity str1 str2 ∧ calculateSimilarity str1 str2 ≤ 1 := by
  unfold calculateSimilarity
  by_cases h : str1.length > str2.length
  · simpa [h] using normalizedScore_bounds str1 str2 (le_of_lt h)
  · simpa [h] using normalizedScore_bounds str2 str1 (le_of_not_lt h)

theorem dotL_self_nonneg : ∀ a : List ℝ, 0 ≤ dotL a a
  | [] => le_refl 0
  | x :: xs => by
    rw [dotL]
    have := dotL_self_nonneg xs
    nlinarith [mul_self_nonneg x]

theorem dotL_eq_sum : ∀ a b : List ℝ, a.length = b.length →
    dotL a b = ∑ i ∈ Finset.range a.length, a.getD i 0 * b.getD i 0 := by
  intro a
  induction a with
  | nil =>
    intro b h
    simp [dotL]
  | cons x xs ih =>
    intro b h
    cases b with
    | nil => simp at h
    | cons y ys =>
      have hlen : xs.length = ys.length := by simpa using h
      rw [dotL, ih ys hlen]
      rw [List.length_cons, Finset.sum_range_succ']
      simp [add_comm]

theorem dotL_sq_le (a b : List ℝ) (h : a.length = b.length) :
    (dotL a b) ^ 2 ≤ dotL a a * dotL b b := by
  rw [dotL_eq_sum a b h, dotL_eq_sum a a rfl, dotL_eq_sum b b rfl, ← h]
  have key := Finset.sum_mul_sq_le_sq_mul_sq (Finset.range a.length)
    (fun i => a.getD i 0) (fun i => b.getD i 0)
  simpa [pow_two] using key

/-- Claim C3 (amended): the vector form (cosine) always lies in `[-1, 1]` (not
`[0, 1]`: it is negative for opposed vectors), and the lexical fallback form
always lies in `[0, 1]`. -/
theorem similarity_range :
    (∀ a b : List ℝ,
      -1 ≤ calculateCosineSimilarity a b ∧ calculateCosineSimilarity a b ≤ 1) ∧
      (∀ s1 s2 : List Char,
        0 ≤ calculateSimilarity s1 s2 ∧ calculateSimilarity s1 s2 ≤ 1) := by
  refine ⟨?_, calculateSimilarity_bounds⟩
  intro a b
  unfold calculateCosineSimilarity
  split
  · norm_num
  · next hlen =>
    dsimp only
    split
    · norm_num
    · next hnorm =>
      push_neg at hnorm
      have hlen' : a.length = b.length := not_ne_iff.mp hlen
      have hna : 0 < dotL a a := lt_of_le_of_ne (dotL_self_nonneg a) (Ne.symm hnorm.1)
      have hnb : 0 < dotL b b := lt_of_le_of_ne (dotL_self_nonneg b) (Ne.symm hnorm.2)
      have hsq : (dotL a b) ^ 2 ≤ dotL a a * dotL b b := dotL_sq_le a b hlen'
      have habs : |dotL a b| ≤ Real.sqrt (dotL a a) * Real.sqrt (dotL b b) := by
        rw [← Real.sqrt_sq_eq_abs, ← Real.sqrt_mul (le_of_lt hna)]
        exact Real.sqrt_le_sqrt hsq
      have hden : 0 < Real.sqrt (dotL a a) * Real.sqrt (dotL b b) :=
        mul_pos (Real.sqrt_pos.mpr hna) (Real.sqrt_pos.mpr hnb)
      have hq : |dotL a b / (Real.sqrt (dotL a a) * Real.sqrt (dotL b b))| ≤ 1 := by
        rw [abs_div, abs_of_pos hden, div_le_one hden]
        exact habs
      exact abs_le.mp hq

/-- Claim C3 counterexample: the cosine form is not in `[0, 1]` — for the
one-dimensional embeddings `[1]` and `[-1]` it equals `-1`. -/
theorem cosine_negative :
    calculateCosineSimilarity [(1 : ℝ)] [(-1 : ℝ)] = -1 ∧
      calculateCosineSimilarity [(1 : ℝ)] [(-1 : ℝ)] < 0 := by
  have h : calculateCosineSimilarity [(1 : ℝ)] [(-1 : ℝ)] = -1 := by
    unfold calculateCosineSimilarity
    rw [if_neg (by simp)]
    dsimp only
    rw [if_neg (by norm_num [dotL])]
    norm_num [dotL, Real.sqrt_one]
  exact ⟨h, by rw [h]; norm_num⟩

/-! ## Claim C4

Appending `" critical 50%"` to a chunk's content adds the importance-keyword
and percentage factors (+0.3 of unclamped score) and cannot remove any other
factor, because every factor test is an existential over positions and the
appended text begins with a non-word character, preserving all right word
boundaries.  The clamp at 1 breaks the claimed strict increase. -/

theorem beginsWith_append : ∀ p s t : List Char,
    beginsWith p s = true → beginsWith p (s ++ t) = true := by
  intro p
  induction p with
  | nil => intro s t _; rfl
  | cons a as ih =>
    intro s t h
    cases s with
    | nil => simp [beginsWith] at h
    | cons b bs =>
      rw [List.cons_append]
      simp only [beginsWith, Bool.and_eq_true] at h ⊢
      exact ⟨h.1, ih bs t h.2⟩

theorem beginsWith_length : ∀ p s : List Char,
    beginsWith p s = true → p.length ≤ s.length := by
  intro p
  induction p with
  | nil => intro s _; simp
  | cons a as ih =>
    intro s h
    cases s with
    | nil => simp [beginsWith] at h
    | cons b bs =>
      simp only [beginsWith, Bool.and_eq_true] at h
      have := ih bs h.2
      simp
      omega

theorem headBoundary_append {s t : List Char} (hs : headBoundary s = true)
    (ht : headBoundary t = true) : headBoundary (s ++ t) = true := by
  cases s with
  | nil => simpa using ht
  | cons c rest => simpa [headBoundary] using hs

theorem kwMatchAt_append {kw : List Char} {prev : Option Char} {s t : List Char}
    (ht : headBoundary t = true) (h : kwMatchAt kw prev s = true) :
    kwMatchAt kw prev (s ++ t) = true := by
  unfold kwMatchAt at h ⊢
  simp only [Bool.and_eq_true] at h ⊢
  obtain ⟨⟨h1, h2⟩, h3⟩ := h
  refine ⟨⟨beginsWith_append _ _ _ h1, h2⟩, ?_⟩
  rw [List.drop_append_of_le_length (beginsWith_length _ _ h1)]
  exact headBoundary_append h3 ht

theorem kwSearch_append {kws : List (List Char)} {t : List Char}
    (ht : headBoundary t = true) :
    ∀ (prev : Option Char) (s : List Char), kwSearch kws prev s = true →
      kwSearch kws prev (s ++ t) = true := by
  intro prev s
  induction s generalizing prev with
  | nil => intro h; simp [kwSearch] at h
  | cons c rest ih =>
    intro h
    rw [List.cons_append, kwSearch]
    rw [kwSearch] at h
    simp only [Bool.or_eq_true] at h ⊢
    rcases h with h | h
    · rcases List.any_eq_true.mp h with ⟨kw, hkws, hm⟩
      exact Or.inl (List.any_eq_true.mpr
        ⟨kw, hkws, by rw [← List.cons_append]; exact kwMatchAt_append ht hm⟩)
    · exact Or.inr (ih (some c) h)

theorem kwSearch_append_of_tail {kws : List (List Char)} {t : List Char}
    (ht : ∀ pc : Option Char, kwSearch kws pc t = true) :
    ∀ (prev : Option Char) (s : List Char), kwSearch kws prev (s ++ t) = true := by
  intro prev s
  induction s generalizing prev with
  | nil => simpa using ht prev
  | cons c rest ih =>
    rw [List.cons_append, kwSearch]
    simp only [Bool.or_eq_true]
    exact Or.inr (ih (some c))

theorem percentSearch_append_right {t : List Char} (ht : percentSearch t = true) :
    ∀ s : List Char, percentSearch (s ++ t) = true := by
  intro s
  induction s with
  | nil => simpa using ht
  | cons c rest ih =>
    rw [List.cons_append, percentSearch]
    simp only [Bool.or_eq_true]
    exact Or.inr ih

theorem yearAt_append {t : List Char} (ht : headBoundary t = true)
    {prev : Option Char} {s : List Char} (h : yearAt prev s = true) :
    yearAt prev (s ++ t) = true := by
  match s with
  | [] => simp [yearAt] at h
  | [d1] => simp [yearAt] at h
  | [d1, d2] => simp [yearAt] at h
  | [d1, d2, d3] => simp [yearAt] at h
  | d1 :: d2 :: d3 :: d4 :: rest2 =>
    simp only [List.cons_append, yearAt, Bool.and_eq_true] at h ⊢
    exact ⟨h.1, headBoundary_append h.2 ht⟩

theorem yearSearch_append {t : List Char} (ht : headBoundary t = true) :
    ∀ (prev : Option Char) (s : List Char), yearSearch prev s = true →
      yearSearch prev (s ++ t) = true := by
  intro prev s
  induction s generalizing prev with
  | nil => intro h; simp [yearSearch] at h
  | cons c rest ih =>
    intro h
    rw [List.cons_append, yearSearch]
    rw [yearSearch] at h
    simp only [Bool.or_eq_true] at h ⊢
    rcases h with h | h
    · exact Or.inl (by rw [← List.cons_append]; exact yearAt_append ht h)
    · exact Or.inr (ih (some c) h)

theorem properSpaceNext_append {t : List Char} {s : List Char}
    (h : properSpaceNext s = true) : properSpaceNext (s ++ t) = true := by
  match s with
  | [] => simp [properSpaceNext] at h
  | [u] => simp [properSpaceNext] at h
  | u :: l :: r3 => simpa [List.cons_append, properSpaceNext] using h

theorem properCont_append {t : List Char} :
    ∀ s : List Char, properCont s = true → properCont (s ++ t) = true := by
  intro s
  induction s with
  | nil => intro h; simp [properCont] at h
  | cons c rest ih =>
    intro h
    rw [List.cons_append, properCont]
    rw [properCont] at h
    simp only [Bool.or_eq_true, Bool.and_eq_true] at h ⊢
    rcases h with ⟨hc, hcont⟩ | ⟨hc, hm⟩
    · exact Or.inl ⟨hc, ih hcont⟩
    · exact Or.inr ⟨hc, properSpaceNext_append hm⟩

theorem properAt_append {t : List Char} {s : List Char} (h : properAt s = true) :
    properAt (s ++ t) = true := by
  match s with
  | [] => simp [properAt] at h
  | [u] => simp [properAt] at h
  | u :: c :: rest =>
    simp only [List.cons_append, properAt, Bool.and_eq_true] at h ⊢
    exact ⟨h.1, properCont_append rest h.2⟩

theorem properSearch_append {t : List Char} :
    ∀ s : List Char, properSearch s = true → properSearch (s ++ t) = true := by
  intro s
  induction s with
  | nil => intro h; simp [properSearch] at h
  | cons c rest ih =>
    intro h
    rw [List.cons_append, properSearch]
    rw [properSearch] at h
    simp only [Bool.or_eq_true] at h ⊢
    rcases h with h | h
    · exact Or.inl (by rw [← List.cons_append]; exact properAt_append h)
    · exact Or.inr (ih h)

theorem criticalSuffix_lower : criticalSuffix.map Char.toLower = criticalSuffix := by decide

theorem criticalSuffix_headBoundary : headBoundary criticalSuffix = true := by decide

/-- The appended suffix itself contains `critical` with word boundaries,
whatever precedes it. -/
theorem kwSearch_criticalSuffix (pc : Option Char) :
    kwSearch importanceKeywords pc criticalSuffix = true := by
  have h2 : kwSearch importanceKeywords (some ' ') "critical 50%".data = true := by decide
  show kwSearch importanceKeywords pc (' ' :: "critical 50%".data) = true
  rw [kwSearch, h2, Bool.or_true]

theorem importanceKwTest_suffix (c : List Char) :
    importanceKwTest (c ++ criticalSuffix) = true := by
  unfold importanceKwTest
  rw [List.map_append, criticalSuffix_lower]
  exact kwSearch_append_of_tail kwSearch_criticalSuffix none (c.map Char.toLower)

theorem percentSearch_suffix (c : List Char) :
    percentSearch (c ++ criticalSuffix) = true :=
  percentSearch_append_right (by decide) c

theorem summaryKwTest_mono {c : List Char} (h : summaryKwTest c = true) :
    summaryKwTest (c ++ criticalSuffix) = true := by
  unfold summaryKwTest at h ⊢
  rw [List.map_append, criticalSuffix_lower]
  exact kwSearch_append criticalSuffix_headBoundary none (c.map Char.toLower) h

theorem analysisKwTest_mono {c : List Char} (h : analysisKwTest c = true) :
    analysisKwTest (c ++ criticalSuffix) = true := by
  unfold analysisKwTest at h ⊢
  rw [List.map_append, criticalSuffix_lower]
  exact kwSearch_append criticalSuffix_headBoundary none (c.map Char.toLower) h

theorem yearTest_mono {c : List Char} (h : yearTest c = true) :
    yearTest (c ++ criticalSuffix) = true := by
  unfold yearTest at h ⊢
  exact yearSearch_append criticalSuffix_headBoundary none c h

theorem properNounTest_mono {c : List Char} (h : properNounTest c = true) :
    properNounTest (c ++ criticalSuffix) = true := by
  unfold properNounTest at h ⊢
  exact properSearch_append c h

theorem ite_mono_weight {b b' : Bool} (h : b = true → b' = true) {w : ℚ} (hw : 0 ≤ w) :
    (if b = true then w else 0) ≤ (if b' = true then w else 0) := by
  cases b
  · simp only [Bool.false_eq_true, if_false]
    split <;> simp [hw]
  · rw [h rfl]

theorem importanceRaw_lb (c : List Char) : 1/2 ≤ importanceRaw c := by
  unfold importanceRaw
  dsimp only
  have h : ∀ (b : Bool) (w : ℚ), 0 ≤ w → (0 : ℚ) ≤ (if b = true then w else 0) := by
    intro b w hw
    split <;> simp [hw]
  have h1 := h (importanceKwTest c) (2/10) (by norm_num)
  have h2 := h (summaryKwTest c) (15/100) (by norm_num)
  have h3 := h (analysisKwTest c) (1/10) (by norm_num)
  have h4 := h (percentSearch c) (1/10) (by norm_num)
  have h5 := h (yearTest c) (5/100) (by norm_num)
  have h6 := h (properNounTest c) (5/100) (by norm_num)
  have h7 := h (decide ((jsSplitWS c).length > 50)) (1/10) (by norm_num)
  have h8 := h (decide ((jsSplitWS c).length > 100)) (5/100) (by norm_num)
  simp only [decide_eq_true_eq] at h7 h8
  linarith

/-- Appending `" critical 50%"` raises the unclamped score by at least
`3/20`: it gains the two new factors (`+0.3`) and loses at most the `0.15`
word-count allowance (in fact it loses nothing, but the crude bound
suffices). -/
theorem importanceRaw_append (c : List Char) (hkw : importanceKwTest c = false)
    (hpct : percentSearch c = false) :
    importanceRaw c + 3/20 ≤ importanceRaw (c ++ criticalSuffix) := by
  have e1 : (if importanceKwTest (c ++ criticalSuffix) = true then (2/10 : ℚ) else 0)
      = 2/10 := by rw [importanceKwTest_suffix c]; simp
  have e1' : (if importanceKwTest c = true then (2/10 : ℚ) else 0) = 0 := by
    rw [hkw]; simp
  have e4 : (if percentSearch (c ++ criticalSuffix) = true then (1/10 : ℚ) else 0)
      = 1/10 := by rw [percentSearch_suffix c]; simp
  have e4' : (if percentSearch c = true then (1/10 : ℚ) else 0) = 0 := by
    rw [hpct]; simp
  have h2 := ite_mono_weight (fun h => summaryKwTest_mono (c := c) h)
    (by norm_num : (0:ℚ) ≤ 15/100)
  have h3 := ite_mono_weight (fun h => analysisKwTest_mono (c := c) h)
    (by norm_num : (0:ℚ) ≤ 1/10)
  have h5 := ite_mono_weight (fun h => yearTest_mono (c := c) h)
    (by norm_num : (0:ℚ) ≤ 5/100)
  have h6 := ite_mono_weight (fun h => properNounTest_mono (c := c) h)
    (by norm_num : (0:ℚ) ≤ 5/100)
  have h7a : (if (jsSplitWS c).length > 50 then (1/10 : ℚ) else 0) ≤ 1/10 := by
    split <;> norm_num
  have h7b : (0 : ℚ) ≤
      (if (jsSplitWS (c ++ criticalSuffix)).length > 50 then (1/10 : ℚ) else 0) := by
    split <;> norm_num
  have h8a : (if (jsSplitWS c).length > 100 then (5/100 : ℚ) else 0) ≤ 5/100 := by
    split <;> norm_num
  have h8b : (0 : ℚ) ≤
      (if (jsSplitWS (c ++ criticalSuffix)).length > 100 then (5/100 : ℚ) else 0) := by
    split <;> norm_num
  unfold importanceRaw
  dsimp only
  linarith

/-- Claim C4 (amended): the importance score is the clamped sum of the fixed
factor weights, always within `[0, 1]`; appending `" critical 50%"` to content
without an importance keyword or percentage never lowers the score, and
strictly raises it whenever the original score is below 1 (the clamp at 1 is
what blocks strictness in general). -/
theorem calculateImportance_critical_percent (c : List Char)
    (hkw : importanceKwTest c = false) (hpct : percentSearch c = false) :
    (0 ≤ calculateImportance c ∧ calculateImportance c ≤ 1) ∧
      calculateImportance c ≤ calculateImportance (c ++ criticalSuffix) ∧
      (calculateImportance c < 1 →
        calculateImportance c < calculateImportance (c ++ criticalSuffix)) := by
  have hr := importanceRaw_append c hkw hpct
  have hlb1 := importanceRaw_lb c
  rw [calculateImportance_eq, calculateImportance_eq]
  refine ⟨⟨le_max_left _ _, max_le (by norm_num) (min_le_right _ _)⟩, ?_, ?_⟩
  · exact max_le_max le_rfl (min_le_min (by linarith) le_rfl)
  · intro hlt
    have hmin0 : (0 : ℚ) ≤ min (importanceRaw c) 1 :=
      le_min (by linarith) (by norm_num)
    rw [max_eq_right hmin0] at hlt ⊢
    have hr1 : importanceRaw c < 1 := by
      by_contra hge
      push_neg at hge
      rw [min_eq_right hge] at hlt
      exact lt_irrefl 1 hlt
    rw [min_eq_left (le_of_lt hr1)] at hlt ⊢
    calc importanceRaw c < min (importanceRaw (c ++ criticalSuffix)) 1 :=
            lt_min (by linarith) hr1
      _ ≤ max 0 (min (importanceRaw (c ++ criticalSuffix)) 1) := le_max_right _ _

/-- Witness for `calculateImportance_critical_percent` at concrete content
without the two markers. -/
theorem calculateImportance_critical_percent_witness :
    calculateImportance "hello world".data ≤
      calculateImportance ("hello world".data ++ criticalSuffix) :=
  (calculateImportance_critical_percent "hello world".data (by decide) (by decide)).2.1

set_option maxRecDepth 40000 in
theorem bigContent_no_kw : importanceKwTest bigContent = false := by decide

set_option maxRecDepth 40000 in
theorem bigContent_no_pct : percentSearch bigContent = false := by decide

set_option maxRecDepth 40000 in
theorem importanceRaw_bigContent : importanceRaw bigContent = 1 := by
  have e2 : summaryKwTest bigContent = true := by decide
  have e3 : analysisKwTest bigContent = true := by decide
  have e5 : yearTest bigContent = true := by decide
  have e6 : properNounTest bigContent = true := by decide
  have ewc : (jsSplitWS bigContent).length = 101 := by decide
  unfold importanceRaw
  dsimp only
  simp only [bigContent_no_kw, bigContent_no_pct, e2, e3, e5, e6, ewc]
  norm_num

/-- Claim C4 counterexample: for `bigContent` the score is already clamped at
1, and appending `" critical 50%"` leaves it at 1 — the added importance
keyword and percentage do not yield a strictly higher score. -/
theorem calculateImportance_clamped :
    calculateImportance bigContent = 1 ∧
      calculateImportance (bigContent ++ criticalSuffix) = 1 ∧
      ¬(calculateImportance bigContent <
          calculateImportance (bigContent ++ criticalSuffix)) := by
  have h1 : calculateImportance bigContent = 1 := by
    rw [calculateImportance_eq, importanceRaw_bigContent]
    norm_num
  have hraw2 : (1 : ℚ) + 3/20 ≤ importanceRaw (bigContent ++ criticalSuffix) := by
    have h := importanceRaw_append bigContent bigContent_no_kw bigContent_no_pct
    rw [importanceRaw_bigContent] at h
    exact h
  have h2 : calculateImportance (bigContent ++ criticalSuffix) = 1 := by
    rw [calculateImportance_eq, min_eq_right (by linarith)]
    norm_num
  exact ⟨h1, h2, by rw [h1, h2]; exact lt_irrefl 1⟩

end DocAssist
